import Mathlib

/-!
Verification of the liberium_core master-election / replication / local-store
cluster (Moleculer services, JavaScript) against its natural-language
specification.  The JavaScript operations are shallowly embedded as pure Lean
functions: each mutating store method becomes a function from the store state
to the new store state plus its returned value, timestamps (`Date.now()`) are
passed in explicitly, JS exceptions become `Except`, and the fire-and-forget
broadcasts become explicit message lists.  Persistence (`saveToDisk`) is
I/O-only and carries no observable state beyond the in-memory structures, so
it is not modelled.
-/

set_option autoImplicit false

namespace Liberium

/-- JS primitive values held by the etcd key/value store.  `null` also stands
for JS `undefined` (the two compare equal to `null` in the source's checks).
Structured JS objects are not needed by any verified operation. -/
inductive Val where
  | null
  | num (n : Int)
  | str (s : String)
  | bool (b : Bool)
deriving DecidableEq

/-- One key's record in the etcd store.  The source keeps two parallel maps
(`storage.data` for the value and `storage.metadata` for the bookkeeping
fields); every operation reads and writes both under the same key, so they are
merged into a single entry here. -/
structure Entry where
  value : Val
  createdAt : Int
  updatedAt : Int
  version : Nat
  expiresAt : Option Int
deriving DecidableEq

/-- The `action` field of a changelog entry.  `addToChangelog` is only ever
called with `"set"` (from `setValue`) and `"delete"` (from `deleteKey`). -/
inductive CAction where
  | set
  | del
deriving DecidableEq

/-- A changelog entry (`{action, key, value?, timestamp, version?, ttl?}`);
fields absent in the JS object literal are `none`. -/
structure ChangeEntry where
  action : CAction
  key : String
  value : Option Val
  timestamp : Int
  version : Option Nat
  ttl : Option Int
deriving DecidableEq

/-- Association-list lookup, embedding `Map.get` (keys in a JS `Map` are
unique, so first-match lookup is exact). -/
def alookup {α : Type} (k : String) : List (String × α) → Option α
  | [] => none
  | (k2, v) :: rest => if k2 = k then some v else alookup k rest

/-- Embedding of `Map.set`: replace the entry when the key is present,
otherwise append it (JS `Map` insertion order). -/
def aset {α : Type} (k : String) (v : α) : List (String × α) → List (String × α)
  | [] => [(k, v)]
  | (k2, v2) :: rest => if k2 = k then (k, v) :: rest else (k2, v2) :: aset k v rest

/-- Embedding of `Map.delete`: drop the entry with the given key.  A JS `Map`
holds each key at most once, so dropping every occurrence coincides with
deleting the single entry. -/
def aremove {α : Type} (k : String) (l : List (String × α)) : List (String × α) :=
  l.filter (fun p => p.1 ≠ k)

/-- The in-memory etcd storage: the (merged) key map plus the bounded
changelog. -/
structure Store where
  data : List (String × Entry)
  changelog : List ChangeEntry
deriving DecidableEq

/-- `addToChangelog`: push the entry, then keep only the most recent 1000
entries (`changelog.slice(-1000)` when the length exceeds 1000). -/
def addToChangelog (log : List ChangeEntry) (e : ChangeEntry) : List ChangeEntry :=
  let l := log ++ [e]
  if 1000 < l.length then l.drop (l.length - 1000) else l

/-- The object returned by `setValue`. -/
structure SetResult where
  key : String
  value : Val
  version : Nat
  success : Bool
deriving DecidableEq

/-- `setValue(key, value, ttl)`: version is previous version + 1 (1 for a new
key), `expiresAt = now + ttl*1000` when `ttl` is truthy (a `ttl` of 0 is falsy
in JS and yields no expiry), appends a `set` changelog entry. -/
def setValue (s : Store) (key : String) (value : Val) (ttl : Option Int) (now : Int) :
    Store × SetResult :=
  let existing := alookup key s.data
  let version : Nat :=
    match existing with
    | some e => e.version + 1
    | none => 1
  let expiresAt : Option Int :=
    match ttl with
    | some t => if t = 0 then none else some (now + t * 1000)
    | none => none
  let entry : Entry :=
    { value := value
      createdAt := match existing with | some e => e.createdAt | none => now
      updatedAt := now
      version := version
      expiresAt := expiresAt }
  let log := addToChangelog s.changelog
    { action := CAction.set, key := key, value := some value, timestamp := now,
      version := some version, ttl := ttl }
  ({ data := aset key entry s.data, changelog := log },
   { key := key, value := value, version := version, success := true })

/-- The object returned by `deleteKey`. -/
structure DelResult where
  key : String
  deleted : Bool
  reason : Option String
deriving DecidableEq

/-- `deleteKey(key)`: `{deleted:false, reason:"Key not found"}` when the key is
absent (no store change, no error); otherwise remove the entry and append a
`delete` changelog entry. -/
def deleteKey (s : Store) (key : String) (now : Int) : Store × DelResult :=
  match alookup key s.data with
  | none => (s, { key := key, deleted := false, reason := some "Key not found" })
  | some _ =>
      let log := addToChangelog s.changelog
        { action := CAction.del, key := key, value := none, timestamp := now,
          version := none, ttl := none }
      ({ data := aremove key s.data, changelog := log },
       { key := key, deleted := true, reason := none })

/-- The `metadata.expiresAt && metadata.expiresAt < Date.now()` test: an
`expiresAt` of 0 is falsy in JS, so it never counts as expired. -/
def isExpired (e : Entry) (now : Int) : Bool :=
  match e.expiresAt with
  | some t => if t ≠ 0 ∧ t < now then true else false
  | none => false

/-- `getValue(key)`: `null` when absent; when the entry has expired it is
lazily deleted through `deleteKey` (appending a `delete` changelog entry) and
`null` is returned; otherwise the record is returned. -/
def getValue (s : Store) (key : String) (now : Int) : Store × Option Entry :=
  match alookup key s.data with
  | none => (s, none)
  | some e =>
      if isExpired e now then ((deleteKey s key now).1, none)
      else (s, some e)

/-- Errors thrown by the embedded handlers (JS `throw new Error(...)`). -/
inductive Err where
  | notMaster
  | onlyMasterSync
  | typeMismatch
  | funcNotFound (name : String)
  | funcExists (name : String)
deriving DecidableEq

/-- `incrementValue(key, delta)`: reads through `getValue` (so lazy expiry
applies), treats an absent key or a `null` value as 0 (the new value is just
`delta`), throws on a non-numeric current value, and delegates to `setValue`
with no ttl. -/
def incrementValue (s : Store) (key : String) (delta : Int) (now : Int) :
    Except Err (Store × SetResult) :=
  let r := getValue s key now
  match r.2 with
  | some e =>
      if e.value = Val.null then Except.ok (setValue r.1 key (Val.num delta) none now)
      else
        match e.value with
        | Val.num n => Except.ok (setValue r.1 key (Val.num (n + delta)) none now)
        | _ => Except.error Err.typeMismatch
  | none => Except.ok (setValue r.1 key (Val.num delta) none now)

/-- Result of `compareAndSwapValue`: either the successful `setValue` result
(extended with `success:true, swapped:true`) or the failure object carrying the
current value. -/
inductive CasResult where
  | swapped (r : SetResult)
  | failed (currentValue : Val)
deriving DecidableEq

/-- The `success` field of a compare-and-swap result. -/
def casSuccess : CasResult → Bool
  | CasResult.swapped _ => true
  | CasResult.failed _ => false

/-- `compareAndSwapValue(key, expectedValue, newValue)`: reads the current
record through `getValue` (lazy expiry applies), succeeds when the key is
absent and `expectedValue` is null/undefined, or when the current value equals
`expectedValue`; otherwise returns the failure object with the current value
(null when absent). -/
def compareAndSwapValue (s : Store) (key : String) (expected : Val) (newValue : Val)
    (now : Int) : Store × CasResult :=
  let r := getValue s key now
  match r.2 with
  | none =>
      if expected = Val.null then
        let r2 := setValue r.1 key newValue none now
        (r2.1, CasResult.swapped r2.2)
      else (r.1, CasResult.failed Val.null)
  | some e =>
      if e.value = expected then
        let r2 := setValue r.1 key newValue none now
        (r2.1, CasResult.swapped r2.2)
      else (r.1, CasResult.failed e.value)

/-- `getChangesSince(timestamp)`: the strictly newer changelog entries, or the
most recent 100 (`changelog.slice(-100)`) when `timestamp` is absent or 0
(falsy in JS). -/
def getChangesSince (s : Store) (timestamp : Option Int) : List ChangeEntry :=
  match timestamp with
  | none => s.changelog.drop (s.changelog.length - 100)
  | some t =>
      if t = 0 then s.changelog.drop (s.changelog.length - 100)
      else s.changelog.filter (fun c => t < c.timestamp)

/-- Replay of one changelog entry inside `applyChanges` (`set` and `delete`
are the only actions ever logged). -/
def applyChange (s : Store) (c : ChangeEntry) (now : Int) : Store :=
  match c.action with
  | CAction.set => (setValue s c.key (c.value.getD Val.null) c.ttl now).1
  | CAction.del => (deleteKey s c.key now).1

/-- `applyChanges(changes)`: replay in order (individual failures are caught
and logged in the source; the replayed operations themselves never throw). -/
def applyChanges (s : Store) (cs : List ChangeEntry) (now : Int) : Store :=
  cs.foldl (fun st c => applyChange st c now) s

/-- State of one etcd service node as the embedded action handlers see it:
the election role fields touched by `ensureMaster`, the local store, and the
slave-side `lastSyncTime` cursor. -/
structure NodeState where
  nodeId : String
  isMaster : Bool
  masterId : Option String
  store : Store
  lastSyncTime : Int
deriving DecidableEq

/-- The Moleculer call metadata relevant to the handlers: the replication
replay marker `meta.isReplication`. -/
structure Meta where
  isReplication : Bool
deriving DecidableEq

/-- `ensureMaster()`: throws `"Only master node can perform write operations"`
unless the node currently believes it is master. -/
def ensureMaster (n : NodeState) : Except Err Unit :=
  if n.isMaster then Except.ok () else Except.error Err.notMaster

/-- The `etcd.set` action handler: `ensureMaster` first (unconditionally, even
for a replication replay), then `setValue`; the returned Bool records whether
`replicateToSlaves` was invoked (`!ctx.meta.isReplication`). -/
def etcdSet (n : NodeState) (meta : Meta) (key : String) (value : Val)
    (ttl : Option Int) (now : Int) : Except Err (NodeState × SetResult × Bool) :=
  match ensureMaster n with
  | Except.error e => Except.error e
  | Except.ok _ =>
      let r := setValue n.store key value ttl now
      Except.ok ({ n with store := r.1 }, r.2, !meta.isReplication)

/-- The `etcd.delete` action handler, same shape as `etcd.set`. -/
def etcdDelete (n : NodeState) (meta : Meta) (key : String) (now : Int) :
    Except Err (NodeState × DelResult × Bool) :=
  match ensureMaster n with
  | Except.error e => Except.error e
  | Except.ok _ =>
      let r := deleteKey n.store key now
      Except.ok ({ n with store := r.1 }, r.2, !meta.isReplication)

/-- The `etcd.increment` action handler, same shape as `etcd.set` with the
possible `typeMismatch` throw from `incrementValue`. -/
def etcdIncrement (n : NodeState) (meta : Meta) (key : String) (delta : Int)
    (now : Int) : Except Err (NodeState × SetResult × Bool) :=
  match ensureMaster n with
  | Except.error e => Except.error e
  | Except.ok _ =>
      match incrementValue n.store key delta now with
      | Except.error e => Except.error e
      | Except.ok r => Except.ok ({ n with store := r.1 }, r.2, !meta.isReplication)

/-- The JS value returned over RPC by the `etcd.sync` action, as the caller's
property accesses see it.  The master returns the plain array produced by
`getChangesSince`; an object of shape `{changes: [...]}` (what `periodicSync`
expects) never occurs in the source but is included so that the property
access below is total over the shapes in play. -/
inductive SyncReply where
  | arrayOf (entries : List ChangeEntry)
  | withChanges (entries : List ChangeEntry)
deriving DecidableEq

/-- JS property access `response.changes`: `undefined` (here `none`) on a
plain array, the payload on a `{changes: [...]}` object. -/
def getChangesProp : SyncReply → Option (List ChangeEntry)
  | SyncReply.arrayOf _ => none
  | SyncReply.withChanges cs => some cs

/-- The `etcd.sync` action handler: the master returns
`getChangesSince(lastSyncTime)` (a plain array); a non-master throws
`"Only master can provide sync data"`. -/
def etcdSync (n : NodeState) (lastSyncTime : Option Int) : Except Err SyncReply :=
  if n.isMaster then Except.ok (SyncReply.arrayOf (getChangesSince n.store lastSyncTime))
  else Except.error Err.onlyMasterSync

/-- `periodicSync()`: a slave that knows a master calls `etcd.sync` on it and
then runs `if (response.changes && response.changes.length > 0)` before
applying; `reply` is the outcome of that remote call (a thrown error from the
call is caught and logged). -/
def periodicSync (n : NodeState) (now : Int) (reply : Except Err SyncReply) : NodeState :=
  if n.isMaster = false then
    match n.masterId with
    | some _ =>
        match reply with
        | Except.error _ => n
        | Except.ok resp =>
            match getChangesProp resp with
            | some cs =>
                if 0 < cs.length then
                  { n with store := applyChanges n.store cs now, lastSyncTime := now }
                else n
            | none => n
    | none => n
  else n

/-- Broadcast messages emitted by the election engines (the `masterElected`
announcement; its optional timestamp payload carries no election-relevant
information and is omitted). -/
inductive Msg where
  | masterElected (masterId : String)
deriving DecidableEq

/-- Lexicographic comparison of character lists (the order underlying
`a.localeCompare(b)` on the plain ASCII node identifiers the cluster uses). -/
def charsLe : List Char → List Char → Bool
  | [], _ => true
  | _ :: _, [] => false
  | c :: cs, d :: ds => if c < d then true else if d < c then false else charsLe cs ds

/-- Lexicographic order on node identifiers. -/
def idLe (a b : String) : Bool :=
  charsLe a.data b.data

/-- `sortNodesByPriority` helper: insert a node id into an already sorted list
of ids. -/
def insertById (x : String) : List String → List String
  | [] => [x]
  | y :: ys => if idLe x y then x :: y :: ys else y :: insertById x ys

/-- `sortNodesByPriority(nodes)`: sort the candidate node ids ascending by
`a.id.localeCompare(b.id)` (embedded as the lexicographic order `idLe`; the
comparator is a strict total order on distinct ASCII ids, so any sort
producing an `idLe`-sorted permutation matches `Array.prototype.sort`).  Both
election modules define this identically. -/
def sortNodesByPriority (nodes : List String) : List String :=
  nodes.foldr insertById []

end Liberium

namespace Liberium.MasterElection

/-- Election state of the coderdb election module
(`services/election/master-election.js`); the heartbeat `setInterval` handle
is modelled by the Bool `heartbeatActive`. -/
structure EState where
  isMaster : Bool
  masterId : Option String
  electionInProgress : Bool
  heartbeatActive : Bool
  lastHeartbeat : Option Int
deriving DecidableEq

/-- `becomeMaster()`: role master, masterId self, start the heartbeat timer,
broadcast `coderdb.masterElected` once. -/
def becomeMaster (selfId : String) (s : EState) : EState × List Msg :=
  ({ s with isMaster := true, masterId := some selfId, heartbeatActive := true },
   [Msg.masterElected selfId])

/-- `becomeSlave(masterId)`: role slave of the given peer, stop the heartbeat
timer. -/
def becomeSlave (masterId : String) (s : EState) : EState × List Msg :=
  ({ s with isMaster := false, masterId := some masterId, heartbeatActive := false }, [])

/-- `initializeElection()` of the coderdb module: all fields reset
(`isMaster=false, masterId=null, electionInProgress=false`, no timer) and a
`triggerElection` scheduled via `setTimeout`; the returned number is that
delay in milliseconds (1000). -/
def initializeElection : EState × Nat :=
  ({ isMaster := false, masterId := none, electionInProgress := false,
     heartbeatActive := false, lastHeartbeat := none }, 1000)

/-- `triggerElection()` of the coderdb module: no-op while an election is in
flight; otherwise sort the membership view, become master when the view is
empty or the lowest id is self, else become slave of the lowest id
(`electionInProgress` is restored to false in the `finally`). -/
def triggerElection (selfId : String) (view : List String) (s : EState) :
    EState × List Msg :=
  if s.electionInProgress then (s, [])
  else
    let s1 := { s with electionInProgress := false }
    match sortNodesByPriority view with
    | [] => becomeMaster selfId s1
    | c :: _ => if c = selfId then becomeMaster selfId s1 else becomeSlave c s1

/-- The `"coderdb.heartbeat"` event handler: for a foreign sender it records
`masterId` and `lastHeartbeat` and does nothing else (in particular it never
changes `isMaster`). -/
def heartbeatEvent (selfId : String) (payloadMasterId : String) (payloadTs : Int)
    (s : EState) : EState :=
  if payloadMasterId ≠ selfId then
    { s with masterId := some payloadMasterId, lastHeartbeat := some payloadTs }
  else s

end Liberium.MasterElection

namespace Liberium.EtcdElection

/-- Election state of the etcd election module
(`services/election/etcd-election.js`); the heartbeat and master-monitoring
`setInterval` handles are modelled by Bools. -/
structure EState where
  isMaster : Bool
  masterId : Option String
  electionInProgress : Bool
  heartbeatActive : Bool
  monitoringActive : Bool
  lastHeartbeat : Option Int
deriving DecidableEq

/-- `becomeMaster()` of the etcd module: role master, masterId self,
`lastHeartbeat = Date.now()`, start the heartbeat, broadcast
`etcd.masterElected`. -/
def becomeMaster (selfId : String) (now : Int) (s : EState) : EState × List Msg :=
  ({ s with isMaster := true, masterId := some selfId, lastHeartbeat := some now,
            heartbeatActive := true },
   [Msg.masterElected selfId])

/-- `becomeSlave(masterId)` of the etcd module: role slave,
`lastHeartbeat = Date.now()`, stop the heartbeat, start master monitoring. -/
def becomeSlave (masterId : String) (now : Int) (s : EState) : EState × List Msg :=
  ({ s with isMaster := false, masterId := some masterId, lastHeartbeat := some now,
            heartbeatActive := false, monitoringActive := true }, [])

/-- `initializeElection()` of the etcd module: reset every field, then
`becomeMaster()` immediately ("on se considère comme master jusqu'à preuve du
contraire"); no election is triggered here. -/
def initializeElection (selfId : String) (now : Int) : EState × List Msg :=
  becomeMaster selfId now
    { isMaster := false, masterId := none, electionInProgress := false,
      heartbeatActive := false, monitoringActive := false, lastHeartbeat := none }

/-- `handleHeartbeat(payload)` of the etcd module: for a foreign sender record
`masterId`/`lastHeartbeat`; when self still believes it is master, demote to
slave of the sender. -/
def handleHeartbeat (selfId : String) (payloadMasterId : String) (payloadTs : Int)
    (now : Int) (s : EState) : EState × List Msg :=
  if payloadMasterId ≠ selfId then
    let s1 := { s with masterId := some payloadMasterId, lastHeartbeat := some payloadTs }
    if s1.isMaster then becomeSlave payloadMasterId now s1 else (s1, [])
  else (s, [])

/-- The `"etcd.heartbeat"` event handler declared on the etcd service itself
(`services/etcd.service.js`): it only records `masterId` and `lastHeartbeat`,
never demoting. -/
def serviceHeartbeatEvent (selfId : String) (payloadMasterId : String)
    (payloadTs : Int) (s : EState) : EState :=
  if payloadMasterId ≠ selfId then
    { s with masterId := some payloadMasterId, lastHeartbeat := some payloadTs }
  else s

end Liberium.EtcdElection

namespace Liberium.FuncStore

/-- A function document in the coderdb function store
(`services/storage/local-storage.js`); the verified `delete` operation only
inspects presence, the payload fields ride along. -/
structure FuncRecord where
  code : String
  testCode : String
  environment : String
  createdAt : Int
  updatedAt : Int
deriving DecidableEq

/-- The function store's `delete(name)`: throws `Function '<name>' not found`
when the name is absent, otherwise removes the record and returns
`{deleted: true}` (the Bool of the pair). -/
def delete (functions : List (String × FuncRecord)) (name : String) :
    Except Err (List (String × FuncRecord) × Bool) :=
  match alookup name functions with
  | none => Except.error (Err.funcNotFound name)
  | some _ => Except.ok (aremove name functions, true)

end Liberium.FuncStore

namespace Liberium

example : (setValue { data := [], changelog := [] } "k" (Val.num 1) none 5).2.version = 1 := by
  decide

example :
    (setValue (setValue { data := [], changelog := [] } "k" (Val.num 1) none 5).1
      "k" (Val.num 2) none 6).2.version = 2 := by
  decide

example : sortNodesByPriority ["b", "a", "c"] = ["a", "b", "c"] := by decide

/-! Order facts about the id comparator, used by the election theorems. -/

theorem charsLe_refl (l : List Char) : charsLe l l = true := by
  induction l with
  | nil => rfl
  | cons c cs ih => simp [charsLe, lt_irrefl, ih]

theorem charsLe_total (a b : List Char) : charsLe a b = true ∨ charsLe b a = true := by
  induction a generalizing b with
  | nil => left; rfl
  | cons c cs ih =>
    cases b with
    | nil => right; rfl
    | cons d ds =>
      by_cases h1 : c < d
      · left; simp [charsLe, h1]
      · by_cases h2 : d < c
        · right; simp [charsLe, h2]
        · have hcd : c = d := le_antisymm (le_of_not_lt h2) (le_of_not_lt h1)
          subst hcd
          rcases ih ds with h | h
          · left; simp [charsLe, lt_irrefl, h]
          · right; simp [charsLe, lt_irrefl, h]

theorem charsLe_trans {a b c : List Char} (h1 : charsLe a b = true)
    (h2 : charsLe b c = true) : charsLe a c = true := by
  induction a generalizing b c with
  | nil => rfl
  | cons x xs ih =>
    cases b with
    | nil => simp [charsLe] at h1
    | cons y ys =>
      cases c with
      | nil => simp [charsLe] at h2
      | cons z zs =>
        by_cases hxy : x < y
        · by_cases hyz : y < z
          · simp [charsLe, lt_trans hxy hyz]
          · by_cases hzy : z < y
            · simp [charsLe, hyz, hzy] at h2
            · have hyzeq : y = z := le_antisymm (le_of_not_lt hzy) (le_of_not_lt hyz)
              subst hyzeq
              simp [charsLe, hxy]
        · by_cases hyx : y < x
          · simp [charsLe, hxy, hyx] at h1
          · have hxyeq : x = y := le_antisymm (le_of_not_lt hyx) (le_of_not_lt hxy)
            subst hxyeq
            simp only [charsLe, lt_irrefl, if_false] at h1
            by_cases hxz : x < z
            · simp [charsLe, hxz]
            · by_cases hzx : z < x
              · simp [charsLe, hxz, hzx] at h2
              · have hxzeq : x = z := le_antisymm (le_of_not_lt hzx) (le_of_not_lt hxz)
                subst hxzeq
                simp only [charsLe, lt_irrefl, if_false] at h2 ⊢
                exact ih h1 h2

theorem charsLe_antisymm {a b : List Char} (h1 : charsLe a b = true)
    (h2 : charsLe b a = true) : a = b := by
  induction a generalizing b with
  | nil =>
    cases b with
    | nil => rfl
    | cons d ds => simp [charsLe] at h2
  | cons c cs ih =>
    cases b with
    | nil => simp [charsLe] at h1
    | cons d ds =>
      by_cases hcd : c < d
      · simp [charsLe, hcd, lt_asymm hcd] at h2
      · by_cases hdc : d < c
        · simp [charsLe, hcd, hdc] at h1
        · have hcdeq : c = d := le_antisymm (le_of_not_lt hdc) (le_of_not_lt hcd)
          subst hcdeq
          simp only [charsLe, lt_irrefl, if_false] at h1 h2
          rw [ih h1 h2]

theorem idLe_refl (a : String) : idLe a a = true :=
  charsLe_refl a.data

theorem idLe_total (a b : String) : idLe a b = true ∨ idLe b a = true :=
  charsLe_total a.data b.data

theorem idLe_trans {a b c : String} (h1 : idLe a b = true) (h2 : idLe b c = true) :
    idLe a c = true :=
  charsLe_trans h1 h2

theorem idLe_antisymm {a b : String} (h1 : idLe a b = true) (h2 : idLe b a = true) :
    a = b := by
  cases a
  cases b
  exact congrArg String.mk (charsLe_antisymm h1 h2)

/-! Facts about `sortNodesByPriority`. -/

theorem sort_nil : sortNodesByPriority [] = [] := rfl

theorem sort_cons (y : String) (ys : List String) :
    sortNodesByPriority (y :: ys) = insertById y (sortNodesByPriority ys) := rfl

theorem mem_insertById {a x : String} {l : List String} :
    a ∈ insertById x l ↔ a = x ∨ a ∈ l := by
  induction l with
  | nil => simp [insertById]
  | cons y ys ih =>
    simp only [insertById]
    by_cases h : idLe x y = true
    · simp [h]
    · rw [if_neg h]
      simp only [List.mem_cons, ih]
      tauto

theorem mem_sortNodesByPriority {a : String} {l : List String} :
    a ∈ sortNodesByPriority l ↔ a ∈ l := by
  induction l with
  | nil => simp [sort_nil]
  | cons y ys ih =>
    rw [sort_cons, mem_insertById, ih]
    simp

theorem insertById_ne_nil (x : String) (l : List String) : insertById x l ≠ [] := by
  cases l with
  | nil => simp [insertById]
  | cons y ys =>
    simp only [insertById]
    by_cases h : idLe x y = true <;> simp [h]

theorem sort_eq_nil_iff {l : List String} : sortNodesByPriority l = [] ↔ l = [] := by
  cases l with
  | nil => simp [sort_nil]
  | cons y ys => simp [sort_cons, insertById_ne_nil]

theorem head_insertById (x : String) (l : List String) :
    (insertById x l).head? =
      some (match l.head? with
            | none => x
            | some y => if idLe x y then x else y) := by
  cases l with
  | nil => rfl
  | cons y ys =>
    simp only [insertById, List.head?]
    by_cases h : idLe x y = true <;> simp [h]

theorem sort_head_min {l : List String} {m : String}
    (hm : (sortNodesByPriority l).head? = some m) :
    m ∈ l ∧ ∀ y ∈ l, idLe m y = true := by
  induction l generalizing m with
  | nil => simp [sort_nil] at hm
  | cons x xs ih =>
    rw [sort_cons, head_insertById] at hm
    cases hsort : (sortNodesByPriority xs).head? with
    | none =>
      rw [hsort] at hm
      injection hm with hm
      have hm2 : x = m := hm
      have hxs : xs = [] := sort_eq_nil_iff.mp (List.head?_eq_none_iff.mp hsort)
      subst hxs
      rw [← hm2]
      refine ⟨List.mem_cons_self x [], ?_⟩
      intro y hy
      rcases List.mem_cons.mp hy with hy | hy
      · rw [hy]; exact idLe_refl x
      · simp at hy
    | some z =>
      rw [hsort] at hm
      injection hm with hm
      have hm2 : (if idLe x z then x else z) = m := hm
      obtain ⟨hz_mem, hz_min⟩ := ih hsort
      by_cases hxz : idLe x z = true
      · rw [if_pos hxz] at hm2
        rw [← hm2]
        refine ⟨List.mem_cons_self x xs, ?_⟩
        intro y hy
        rcases List.mem_cons.mp hy with hy | hy
        · rw [hy]; exact idLe_refl x
        · exact idLe_trans hxz (hz_min y hy)
      · rw [if_neg hxz] at hm2
        rw [← hm2]
        refine ⟨List.mem_cons_of_mem x hz_mem, ?_⟩
        intro y hy
        rcases List.mem_cons.mp hy with hy | hy
        · rw [hy]
          rcases idLe_total z x with h | h
          · exact h
          · exact absurd h hxz
        · exact hz_min y hy

/-! Small facts about the embedded `Map` operations. -/

theorem alookup_aset_self {α : Type} (k : String) (v : α) (l : List (String × α)) :
    alookup k (aset k v l) = some v := by
  induction l with
  | nil => simp [aset, alookup]
  | cons p rest ih =>
    obtain ⟨k2, v2⟩ := p
    by_cases h : k2 = k
    · simp [aset, h, alookup]
    · simp [aset, h, alookup, ih]

theorem aremove_cons {α : Type} (k k2 : String) (v : α) (rest : List (String × α)) :
    aremove k ((k2, v) :: rest) =
      if k2 = k then aremove k rest else (k2, v) :: aremove k rest := by
  by_cases h : k2 = k <;> simp [aremove, List.filter_cons, h]

theorem alookup_aremove_self {α : Type} (k : String) (l : List (String × α)) :
    alookup k (aremove k l) = none := by
  induction l with
  | nil => rfl
  | cons p rest ih =>
    obtain ⟨k2, v2⟩ := p
    rw [aremove_cons]
    by_cases h : k2 = k
    · simp [h, ih]
    · simp [alookup, h, ih]

/-- The version currently stored under a key, 0 when the key is absent. -/
def storedVersion (s : Store) (key : String) : Nat :=
  match alookup key s.data with
  | some e => e.version
  | none => 0

theorem setValue_version (s : Store) (key : String) (value : Val) (ttl : Option Int)
    (now : Int) : ((setValue s key value ttl now).2).version = storedVersion s key + 1 := by
  unfold setValue storedVersion
  cases h : alookup key s.data <;> simp [h]

theorem storedVersion_setValue (s : Store) (key : String) (value : Val)
    (ttl : Option Int) (now : Int) :
    storedVersion ((setValue s key value ttl now).1) key = storedVersion s key + 1 := by
  unfold setValue storedVersion
  cases h : alookup key s.data <;> simp [h, alookup_aset_self]

/-- A sequence of `setValue` calls to a single key, returning the final store
and the list of versions the calls returned (the claim quantifies over such
sequences). -/
def setSeq (s : Store) (key : String) (ops : List (Val × Option Int)) (now : Int) :
    Store × List Nat :=
  match ops with
  | [] => (s, [])
  | (v, ttl) :: rest =>
      let r := setValue s key v ttl now
      let r2 := setSeq r.1 key rest now
      (r2.1, r.2.version :: r2.2)

/-- C6: for every store and every sequence of successful `Set` calls to the
same key, the returned versions are consecutive integers starting one above
the currently stored version — so they increase by exactly 1 per call, and a
`Set` on a key with no prior record (stored version 0) returns 1. -/
theorem claim_C6_version_increments (s : Store) (key : String)
    (ops : List (Val × Option Int)) (now : Int) :
    (setSeq s key ops now).2 = List.range' (storedVersion s key + 1) ops.length := by
  induction ops generalizing s with
  | nil => simp [setSeq]
  | cons op rest ih =>
    obtain ⟨v, ttl⟩ := op
    simp only [setSeq, List.length_cons, List.range'_succ]
    rw [setValue_version, ih, storedVersion_setValue]

theorem deleteKey_absent (s : Store) (key : String) (now : Int)
    (h : alookup key s.data = none) :
    deleteKey s key now =
      (s, { key := key, deleted := false, reason := some "Key not found" }) := by
  simp [deleteKey, h]

/-- The empty store, used by concrete witnesses. -/
def emptyStore : Store :=
  { data := [], changelog := [] }

/-- A demo record with no expiry, used by concrete witnesses. -/
def demoEntry : Entry :=
  { value := Val.num 1, createdAt := 0, updatedAt := 0, version := 1, expiresAt := none }

/-- A one-key demo store, used by concrete witnesses. -/
def demoStore : Store :=
  { data := [("k", demoEntry)], changelog := [] }

/-- A demo record that expired at time 5, used by concrete witnesses. -/
def expiredEntry : Entry :=
  { value := Val.str "v", createdAt := 0, updatedAt := 0, version := 1, expiresAt := some 5 }

/-- A store holding only the expired demo record, used by concrete witnesses. -/
def expiredStore : Store :=
  { data := [("k", expiredEntry)], changelog := [] }

/-- C8: key/value `Delete` is idempotent and total — deleting an absent key
returns `{deleted:false}` without error and without modifying the store, and
deleting an existing key twice yields `deleted=true` then `deleted=false`
(the second call not changing the store further). -/
theorem claim_C8_delete_idempotent (s : Store) (key : String) (now now2 : Int) :
    (alookup key s.data = none →
      deleteKey s key now =
        (s, { key := key, deleted := false, reason := some "Key not found" }))
    ∧ (∀ e, alookup key s.data = some e →
        ((deleteKey s key now).2).deleted = true
        ∧ ((deleteKey (deleteKey s key now).1 key now2).2).deleted = false
        ∧ (deleteKey (deleteKey s key now).1 key now2).1 = (deleteKey s key now).1) := by
  constructor
  · intro h
    exact deleteKey_absent s key now h
  · intro e h
    have h2 : alookup key ((deleteKey s key now).1).data = none := by
      simp [deleteKey, h, alookup_aremove_self]
    refine ⟨by simp [deleteKey, h], ?_, ?_⟩
    · rw [deleteKey_absent _ _ _ h2]
    · rw [deleteKey_absent _ _ _ h2]

/-- Closed witness for C8 at a concrete store. -/
theorem claim_C8_delete_idempotent_witness :
    (deleteKey emptyStore "k" 7 =
      (emptyStore, { key := "k", deleted := false, reason := some "Key not found" }))
    ∧ ((deleteKey demoStore "k" 7).2).deleted = true := by
  constructor
  · exact (claim_C8_delete_idempotent emptyStore "k" 7 7).1 (by decide)
  · exact ((claim_C8_delete_idempotent demoStore "k" 7 7).2 demoEntry (by decide)).1

/-- C9: `Get` on a key whose record has a past `expiresAt` returns `NotFound`
(none), removes the entry from the store, and appends a `delete` changelog
entry; `Get` on an absent key returns `NotFound` leaving the store (and its
change log) untouched. -/
theorem claim_C9_lazy_expiry (s : Store) (key : String) (now : Int) :
    (∀ e t, alookup key s.data = some e → e.expiresAt = some t → t ≠ 0 → t < now →
      getValue s key now =
        ({ data := aremove key s.data,
           changelog := addToChangelog s.changelog
             { action := CAction.del, key := key, value := none, timestamp := now,
               version := none, ttl := none } }, none))
    ∧ (alookup key s.data = none → getValue s key now = (s, none)) := by
  constructor
  · intro e t he ht h0 hlt
    have hexp : isExpired e now = true := by
      simp [isExpired, ht, h0, hlt]
    simp [getValue, he, hexp, deleteKey]
  · intro h
    simp [getValue, h]

/-- Store contents expected after the expired demo record is lazily deleted
by a `Get` at time 10. -/
def expiredStoreAfterGet : Store :=
  { data := [],
    changelog := [{ action := CAction.del, key := "k", value := none, timestamp := 10,
                    version := none, ttl := none }] }

/-- Closed witness for C9: a record expired at time 5 read at time 10. -/
theorem claim_C9_lazy_expiry_witness :
    getValue expiredStore "k" 10 = (expiredStoreAfterGet, none) := by
  have h := (claim_C9_lazy_expiry expiredStore "k" 10).1 expiredEntry 5
    (by decide) (by decide) (by decide) (by decide)
  rw [h]
  decide

/-- The value a `Get` would currently surface for a key (its non-expired
stored value): the read-only view of `getValue`. -/
def liveValue (s : Store) (key : String) (now : Int) : Option Val :=
  ((getValue s key now).2).map (fun e => e.value)

theorem getValue_fst_of_no_expired (s : Store) (key : String) (now : Int)
    (h : ∀ e, alookup key s.data = some e → isExpired e now = false) :
    (getValue s key now).1 = s := by
  unfold getValue
  cases halook : alookup key s.data with
  | none => rfl
  | some e => simp [h e halook]

/-- C7 counterexample: the claim states that a failed `CompareAndSwap` leaves
the stored record completely unchanged, but a CAS on a present-but-expired
record fails (expected value not null) while its read lazily deletes the
expired record, changing the store. -/
theorem claim_C7_counterexample :
    casSuccess (compareAndSwapValue expiredStore "k" (Val.str "w") (Val.str "z") 10).2 = false
    ∧ (compareAndSwapValue expiredStore "k" (Val.str "w") (Val.str "z") 10).1 ≠ expiredStore := by
  decide

/-- C7 (amended): `CompareAndSwap` succeeds and swaps exactly when the current
live value equals `expected`, or the key is live-absent and `expected` is nil;
on failure it returns the current value and performs no write of its own — the
post-state is exactly the state left by the `getValue` read, which equals the
original store except that reading a present-but-expired record lazily deletes
it.  In particular a failed CAS on a key that is not an expired record leaves
the store completely unchanged. -/
theorem claim_C7_cas_semantics (s : Store) (key : String) (expected newValue : Val)
    (now : Int) :
    (casSuccess (compareAndSwapValue s key expected newValue now).2 = true ↔
      (liveValue s key now = some expected ∨
        (liveValue s key now = none ∧ expected = Val.null)))
    ∧ (casSuccess (compareAndSwapValue s key expected newValue now).2 = false →
        (compareAndSwapValue s key expected newValue now).2 =
          CasResult.failed ((liveValue s key now).getD Val.null)
        ∧ (compareAndSwapValue s key expected newValue now).1 = (getValue s key now).1)
    ∧ ((∀ e, alookup key s.data = some e → isExpired e now = false) →
        casSuccess (compareAndSwapValue s key expected newValue now).2 = false →
        (compareAndSwapValue s key expected newValue now).1 = s) := by
  have hmain :
      (casSuccess (compareAndSwapValue s key expected newValue now).2 = true ↔
        (liveValue s key now = some expected ∨
          (liveValue s key now = none ∧ expected = Val.null)))
      ∧ (casSuccess (compareAndSwapValue s key expected newValue now).2 = false →
          (compareAndSwapValue s key expected newValue now).2 =
            CasResult.failed ((liveValue s key now).getD Val.null)
          ∧ (compareAndSwapValue s key expected newValue now).1 = (getValue s key now).1) := by
    unfold compareAndSwapValue liveValue
    cases hcur : (getValue s key now).2 with
    | none =>
      by_cases hexp : expected = Val.null
      · simp [hcur, hexp, casSuccess]
      · simp [hcur, hexp, casSuccess, Ne.symm hexp]
    | some e =>
      by_cases heq : e.value = expected
      · simp [hcur, heq, casSuccess]
      · simp [hcur, heq, casSuccess, Ne.symm heq]
  refine ⟨hmain.1, hmain.2, ?_⟩
  intro hnoexp hfail
  rw [(hmain.2 hfail).2]
  exact getValue_fst_of_no_expired s key now hnoexp

/-- Closed witness for C7: a failed CAS on a live (non-expired) record leaves
the store unchanged and reports the current value. -/
theorem claim_C7_cas_semantics_witness :
    (compareAndSwapValue demoStore "k" (Val.str "w") (Val.str "z") 10).1 = demoStore := by
  exact (claim_C7_cas_semantics demoStore "k" (Val.str "w") (Val.str "z") 10).2.2
    (by decide) (by decide)

/-- C10: the function-record store's `delete` is not idempotent — for an
absent name it throws `Function '<name>' not found` instead of returning
`{deleted:false}`, and it returns `{deleted:true}` exactly when the record
existed (and is then removed). -/
theorem claim_C10_function_delete_not_idempotent
    (fs : List (String × FuncStore.FuncRecord)) (name : String) :
    (alookup name fs = none →
      FuncStore.delete fs name = Except.error (Err.funcNotFound name))
    ∧ (∀ r, alookup name fs = some r →
        FuncStore.delete fs name = Except.ok (aremove name fs, true)) := by
  constructor
  · intro h
    simp [FuncStore.delete, h]
  · intro r h
    simp [FuncStore.delete, h]

/-- A demo function record, used by the C10 witness. -/
def demoFunc : FuncStore.FuncRecord :=
  { code := "return 1", testCode := "assert", environment := "development",
    createdAt := 0, updatedAt := 0 }

/-- Closed witness for C10 at concrete stores. -/
theorem claim_C10_function_delete_not_idempotent_witness :
    (FuncStore.delete [] "f" = Except.error (Err.funcNotFound "f"))
    ∧ FuncStore.delete [("f", demoFunc)] "f" = Except.ok ([], true) := by
  constructor
  · exact (claim_C10_function_delete_not_idempotent [] "f").1 (by decide)
  · have h := (claim_C10_function_delete_not_idempotent [("f", demoFunc)] "f").2
      demoFunc (by decide)
    rw [h]
    rfl

/-- A slave node, used by the C1/C2 witnesses. -/
def slaveNode : NodeState :=
  { nodeId := "node-b", isMaster := false, masterId := some "node-a",
    store := emptyStore, lastSyncTime := 50 }

/-- C1: the claim states that a mutating call carrying the replication-replay
flag (`meta.isReplication = true`) on a Slave skips re-replication but
otherwise applies the write and returns the normal result.  The handlers
instead run `ensureMaster()` before the replication-marker check, so every
replicated `set`/`delete`/`increment` on a slave is rejected with the Slave
write-rejection (NotMaster) error and nothing is applied — this theorem
evaluates the embedded handlers at that configuration. -/
theorem claim_C1_replication_replay_rejected (n : NodeState) (meta : Meta)
    (key : String) (value : Val) (ttl : Option Int) (delta : Int) (now : Int)
    (hslave : n.isMaster = false) (hrep : meta.isReplication = true) :
    etcdSet n meta key value ttl now = Except.error Err.notMaster
    ∧ etcdDelete n meta key now = Except.error Err.notMaster
    ∧ etcdIncrement n meta key delta now = Except.error Err.notMaster := by
  refine ⟨?_, ?_, ?_⟩ <;> simp [etcdSet, etcdDelete, etcdIncrement, ensureMaster, hslave]

/-- Closed witness for C1: a concrete replicated write on a concrete slave. -/
theorem claim_C1_replication_replay_rejected_witness :
    etcdSet slaveNode { isReplication := true } "k" (Val.num 1) none 5 =
      Except.error Err.notMaster := by
  exact (claim_C1_replication_replay_rejected slaveNode { isReplication := true }
    "k" (Val.num 1) none 1 5 rfl rfl).1

/-- A changelog entry newer than `slaveNode.lastSyncTime`, used by the C2
witness. -/
def demoChange : ChangeEntry :=
  { action := CAction.set, key := "k", value := some (Val.num 1), timestamp := 100,
    version := some 1, ttl := none }

/-- A master node whose changelog holds `demoChange`, used by the C2
witness. -/
def masterNode : NodeState :=
  { nodeId := "node-a", isMaster := true, masterId := some "node-a",
    store := { data := [("k", demoEntry)], changelog := [demoChange] },
    lastSyncTime := 0 }

/-- C2: the claim states that each slave sync cycle applies the entries
returned by the master's `GetChangesSince` and then advances `lastSyncTime`.
The master's `etcd.sync` returns the plain changelog array, while
`periodicSync` reads `response.changes` — undefined on an array — so the
composition never applies any entry and never advances `lastSyncTime`: the
slave is returned unchanged for every master reply.  The conjunct that holds
is the master-side defensive check: a non-master answers `sync` with the
NotMaster-style error. -/
theorem claim_C2_periodic_sync_never_applies (slave master : NodeState) (now : Int)
    (t : Option Int) :
    periodicSync slave now (etcdSync master (some slave.lastSyncTime)) = slave
    ∧ (master.isMaster = false → etcdSync master t = Except.error Err.onlyMasterSync) := by
  constructor
  · by_cases hsm : slave.isMaster = false
    · cases hmid : slave.masterId with
      | none => simp [periodicSync, hsm, hmid]
      | some m =>
        by_cases hm : master.isMaster
        · simp [periodicSync, etcdSync, hsm, hmid, hm, getChangesProp]
        · simp [periodicSync, etcdSync, hsm, hmid, hm]
    · simp [periodicSync, hsm]
  · intro h
    simp [etcdSync, h]

/-- Closed witness for C2: the master does return a nonempty change list for
the slave's cursor, yet the slave's sync cycle leaves it unchanged; a
non-master refuses `sync`. -/
theorem claim_C2_periodic_sync_never_applies_witness :
    etcdSync masterNode (some slaveNode.lastSyncTime) =
      Except.ok (SyncReply.arrayOf [demoChange])
    ∧ periodicSync slaveNode 200 (etcdSync masterNode (some slaveNode.lastSyncTime)) =
        slaveNode
    ∧ etcdSync slaveNode (some 50) = Except.error Err.onlyMasterSync := by
  refine ⟨rfl, ?_, ?_⟩
  · exact (claim_C2_periodic_sync_never_applies slaveNode masterNode 200 (some 50)).1
  · exact (claim_C2_periodic_sync_never_applies slaveNode slaveNode 200 (some 50)).2 rfl

/-- C3 counterexample: immediately after the coderdb election module's
`initializeElection` runs (startup, before any peer information), the node's
role is not Master — `isMaster` is false with no masterId, and the election it
schedules only fires 1000 ms later. -/
theorem claim_C3_counterexample :
    ((MasterElection.initializeElection).1).isMaster = false
    ∧ ((MasterElection.initializeElection).1).masterId = none
    ∧ (MasterElection.initializeElection).2 = 1000 := by
  decide

/-- C3 (amended): the etcd election engine's `initializeElection` does end
with role Master — it calls `becomeMaster`, setting masterId to self and
broadcasting `masterElected`, without triggering an election; the coderdb
election engine instead initializes to a non-master state with no masterId and
schedules `triggerElection` 1000 ms later. -/
theorem claim_C3_initialization_roles (selfId : String) (now : Int) :
    ((EtcdElection.initializeElection selfId now).1).isMaster = true
    ∧ ((EtcdElection.initializeElection selfId now).1).masterId = some selfId
    ∧ (EtcdElection.initializeElection selfId now).2 = [Msg.masterElected selfId]
    ∧ ((MasterElection.initializeElection).1).isMaster = false
    ∧ (MasterElection.initializeElection).2 = 1000 :=
  ⟨rfl, rfl, rfl, rfl, rfl⟩

/-- A coderdb election state that believes it is Master, used by C4. -/
def conflictMasterState : MasterElection.EState :=
  { isMaster := true, masterId := some "node-a", electionInProgress := false,
    heartbeatActive := true, lastHeartbeat := none }

/-- C4 counterexample: a coderdb node that believes it is Master and receives
a heartbeat naming a different node is still Master after the
`coderdb.heartbeat` event handler runs — it only records the sender as
masterId, so the claimed demotion to Slave does not happen. -/
theorem claim_C4_counterexample :
    (MasterElection.heartbeatEvent "node-a" "node-b" 100 conflictMasterState).isMaster = true
    ∧ (MasterElection.heartbeatEvent "node-a" "node-b" 100 conflictMasterState).masterId
        = some "node-b" := by
  decide

/-- C4 (amended): only the etcd election module's `handleHeartbeat` demotes a
Master that receives a foreign heartbeat — it becomes Slave with the sender as
masterId; the coderdb `coderdb.heartbeat` event handler and the etcd
service-level `etcd.heartbeat` event handler leave the role unchanged,
recording only masterId and lastHeartbeat. -/
theorem claim_C4_heartbeat_demotion (selfId sender : String) (ts now : Int)
    (s : EtcdElection.EState) (s2 : MasterElection.EState) (s3 : EtcdElection.EState)
    (hne : sender ≠ selfId) (hm : s.isMaster = true) :
    ((EtcdElection.handleHeartbeat selfId sender ts now s).1).isMaster = false
    ∧ ((EtcdElection.handleHeartbeat selfId sender ts now s).1).masterId = some sender
    ∧ (MasterElection.heartbeatEvent selfId sender ts s2).isMaster = s2.isMaster
    ∧ (EtcdElection.serviceHeartbeatEvent selfId sender ts s3).isMaster = s3.isMaster := by
  refine ⟨?_, ?_, ?_, ?_⟩
  · simp [EtcdElection.handleHeartbeat, hne, hm, EtcdElection.becomeSlave]
  · simp [EtcdElection.handleHeartbeat, hne, hm, EtcdElection.becomeSlave]
  · unfold MasterElection.heartbeatEvent
    split <;> rfl
  · unfold EtcdElection.serviceHeartbeatEvent
    split <;> rfl

/-- An etcd election state that believes it is Master, used by the C4
witness. -/
def etcdConflictMaster : EtcdElection.EState :=
  { isMaster := true, masterId := some "node-a", electionInProgress := false,
    heartbeatActive := true, monitoringActive := false, lastHeartbeat := some 0 }

/-- Closed witness for C4 at concrete states. -/
theorem claim_C4_heartbeat_demotion_witness :
    ((EtcdElection.handleHeartbeat "node-a" "node-b" 100 150 etcdConflictMaster).1).isMaster
      = false := by
  exact (claim_C4_heartbeat_demotion "node-a" "node-b" 100 150 etcdConflictMaster
    conflictMasterState etcdConflictMaster (by decide) rfl).1

/-- C5: `triggerElection` is deterministic over a membership view with
pairwise-distinct identifiers — candidates are ordered lexicographically by
node id, the local node becomes Master exactly when the view is empty or its
id heads the sorted candidates (equivalently, for a node in the view, when its
id is lowest), and every other node running the same rule on the same view
ends up Slave of that single lowest-id winner, so exactly one Master results.
The election is run from any state with no election already in flight. -/
theorem claim_C5_lowest_id_wins (view : List String) (selfId : String)
    (s : MasterElection.EState) (hflight : s.electionInProgress = false)
    (hdist : view.Pairwise (fun a b => a ≠ b)) :
    (((MasterElection.triggerElection selfId view s).1).isMaster = true ↔
      (view = [] ∨ (sortNodesByPriority view).head? = some selfId))
    ∧ (selfId ∈ view →
        (((MasterElection.triggerElection selfId view s).1).isMaster = true ↔
          ∀ y ∈ view, idLe selfId y = true))
    ∧ (∀ w, (sortNodesByPriority view).head? = some w →
        w ∈ view
        ∧ (∀ y ∈ view, idLe w y = true)
        ∧ ((MasterElection.triggerElection w view s).1).isMaster = true
        ∧ ((MasterElection.triggerElection w view s).1).masterId = some w
        ∧ ∀ x, x ≠ w →
            ((MasterElection.triggerElection x view s).1).isMaster = false
            ∧ ((MasterElection.triggerElection x view s).1).masterId = some w) := by
  have hresNil : sortNodesByPriority view = [] → ∀ x : String,
      MasterElection.triggerElection x view s =
        MasterElection.becomeMaster x { s with electionInProgress := false } := by
    intro h x
    simp [MasterElection.triggerElection, hflight, h]
  have hresCons : ∀ c rest, sortNodesByPriority view = c :: rest → ∀ x : String,
      MasterElection.triggerElection x view s =
        (if c = x then MasterElection.becomeMaster x { s with electionInProgress := false }
         else MasterElection.becomeSlave c { s with electionInProgress := false }) := by
    intro c rest h x
    simp [MasterElection.triggerElection, hflight, h]
  refine ⟨?_, ?_, ?_⟩
  · cases hs : sortNodesByPriority view with
    | nil =>
      have hview : view = [] := sort_eq_nil_iff.mp hs
      rw [hresNil hs selfId]
      simp [MasterElection.becomeMaster, hview]
    | cons c rest =>
      have hview : view ≠ [] := by
        intro h
        rw [h] at hs
        simp [sort_nil] at hs
      rw [hresCons c rest hs selfId]
      by_cases hc : c = selfId
      · simp [hc, MasterElection.becomeMaster, hview]
      · simp [hc, MasterElection.becomeSlave, hview]
  · intro hmem
    cases hs : sortNodesByPriority view with
    | nil =>
      have hview : view = [] := sort_eq_nil_iff.mp hs
      rw [hview] at hmem
      simp at hmem
    | cons c rest =>
      obtain ⟨hcmem, hcmin⟩ := sort_head_min (l := view) (m := c) (by rw [hs]; rfl)
      rw [hresCons c rest hs selfId]
      by_cases hc : c = selfId
      · rw [if_pos hc]
        constructor
        · intro _ y hy
          rw [← hc]
          exact hcmin y hy
        · intro _
          rfl
      · rw [if_neg hc]
        constructor
        · intro hmaster
          simp [MasterElection.becomeSlave] at hmaster
        · intro hmin
          have h1 : idLe selfId c = true := hmin c hcmem
          have h2 : idLe c selfId = true := hcmin selfId hmem
          exact absurd (idLe_antisymm h2 h1) hc
  · intro w hw
    obtain ⟨hwmem, hwmin⟩ := sort_head_min hw
    cases hs : sortNodesByPriority view with
    | nil =>
      rw [hs] at hw
      simp at hw
    | cons c rest =>
      rw [hs] at hw
      have hcw : c = w := by simpa using hw
      refine ⟨hwmem, hwmin, ?_, ?_, ?_⟩
      · rw [hresCons c rest hs w, if_pos hcw]
        rfl
      · rw [hresCons c rest hs w, if_pos hcw]
        rfl
      · intro x hx
        have hcx : ¬ c = x := by
          rw [hcw]
          exact fun h => hx h.symm
        rw [hresCons c rest hs x, if_neg hcx]
        exact ⟨rfl, by rw [← hcw]; rfl⟩

/-- Closed witness for C5: on the concrete two-node view the lowest id wins
and the other node becomes its slave. -/
theorem claim_C5_lowest_id_wins_witness :
    ((MasterElection.triggerElection "node-a" ["node-b", "node-a"]
        (MasterElection.initializeElection).1).1).isMaster = true
    ∧ ((MasterElection.triggerElection "node-b" ["node-b", "node-a"]
        (MasterElection.initializeElection).1).1).masterId = some "node-a" := by
  have h := claim_C5_lowest_id_wins ["node-b", "node-a"] "node-a"
    (MasterElection.initializeElection).1 rfl (by decide)
  have h3 := h.2.2 "node-a" (by decide)
  exact ⟨h3.2.2.1, (h3.2.2.2.2 "node-b" (by decide)).2⟩

end Liberium
